import Mathlib

/-!
Verification development for the static site generator in `src/main.py`.

The Python source is embedded shallowly: Python dicts become association
lists where a later binding overrides an earlier one, Python string
truthiness becomes explicit emptiness tests, and the streaming HTML
rewriter (`ImageReplacementParser`, built on the standard library
`html.parser`) becomes a token list together with the per-token output
functions copied from the handler methods.
-/

namespace SiteBuild

/-- Lookup in a Python dict built from a list of bindings: a later binding
for the same key overrides an earlier one (dict-comprehension semantics). -/
def dictGet {α : Type} (l : List (String × α)) (k : String) : Option α :=
  match l with
  | [] => none
  | p :: rest =>
    match dictGet rest k with
    | some v => some v
    | none => if p.1 == k then some p.2 else none

/-- Python truthiness of an optional attribute value: `None`, a missing key
and the empty string are all falsy; a non-empty string is returned. -/
def pyOrStr (v : Option (Option String)) : Option String :=
  match v with
  | some (some s) => if s == "" then none else some s
  | _ => none

/-- Embeds Python `str.lower` for the ASCII names appearing in tags and
attributes. -/
def lowerStr (s : String) : String := String.mk (s.toList.map Char.toLower)

/-- Does the character list start with the given pattern. -/
def listStartsWith : List Char → List Char → Bool
  | _, [] => true
  | [], _ :: _ => false
  | c :: cs, p :: ps => c == p && listStartsWith cs ps

/-- The characters before the first occurrence of `sep`; the whole list if
`sep` does not occur.  Embeds `s.split(sep, 1)[0]` for a one-character
separator. -/
def beforeFirst : List Char → Char → List Char
  | [], _ => []
  | c :: cs, sep => if c == sep then [] else c :: beforeFirst cs sep

/-- The characters after the first occurrence of the (non-empty) pattern,
or `none` when the pattern does not occur.  Embeds the combination of
`pat in s` and `s.split(pat, 1)[1]`. -/
def subAfter : List Char → List Char → Option (List Char)
  | [], _ => none
  | c :: cs, pat =>
    if listStartsWith (c :: cs) pat then some (List.drop pat.length (c :: cs))
    else subAfter cs pat

/-- Does the string start with the given one; embeds `str.startswith`. -/
def strStartsWith (s pre : String) : Bool := listStartsWith s.toList pre.toList

/-- Embeds `os.path.basename` on POSIX: the characters after the last
slash. -/
def pyBasename (s : String) : String :=
  String.mk (s.toList.foldl (fun acc c => if c == '/' then [] else acc ++ [c]) [])

/-- Embeds `html.escape(value, quote=True)`: the five special characters
are replaced by their entity forms (codepoints 38 `&`, 60 `<`, 62 `>`,
34 double quote, 39 apostrophe). -/
def escapeChar (c : Char) : String :=
  if c.toNat == 38 then "&amp;"
  else if c.toNat == 60 then "&lt;"
  else if c.toNat == 62 then "&gt;"
  else if c.toNat == 34 then "&quot;"
  else if c.toNat == 39 then "&#x27;"
  else String.mk [c]

/-- Escape a full attribute value. -/
def escapeHTML (s : String) : String := String.join (s.toList.map escapeChar)

/-- Attribute lists as delivered by `html.parser`: name and optional value. -/
abbrev Attrs := List (String × Option String)

/-- Embeds `_render_attributes` from `src/main.py`. -/
def render_attributes (attrs : Attrs) : String :=
  String.join (attrs.map (fun p =>
    match p.2 with
    | none => " " ++ p.1
    | some v => " " ++ p.1 ++ "=\"" ++ escapeHTML v ++ "\""))

/-- One entry of an image-manifest format list: a processed variant with an
optional `path` and `width` field (`v.get("path")` / `v.get("width")`). -/
structure Variant where
  path : Option String
  width : Option Nat
deriving DecidableEq

/-- A manifest entry: Python dict from format name to variant list. -/
abbrev ManifestEntry := List (String × List Variant)

/-- The image manifest: Python dict from base filename to entry. -/
abbrev Manifest := List (String × ManifestEntry)

/-- `v.get("width")` with default 0, the sort key of both `sorted` calls. -/
def widthD (v : Variant) : Nat := v.width.getD 0

/-- The ordering used by Python `sorted(..., key=lambda item: item["width"])`. -/
def widthLe (a b : Variant) : Prop := widthD a ≤ widthD b

instance : DecidableRel widthLe := fun a b => Nat.decLe (widthD a) (widthD b)

instance : IsTotal Variant widthLe := ⟨fun a b => Nat.le_total (widthD a) (widthD b)⟩

instance : IsTrans Variant widthLe := ⟨fun _ _ _ h1 h2 => Nat.le_trans h1 h2⟩

/-- Python `sorted` with the width key: a stable sort, embedded by
insertion sort over `widthLe`. -/
def sortByWidth (l : List Variant) : List Variant := List.insertionSort widthLe l

/-- Python truthiness of `v.get("path") and v.get("width")`: the variant
has a non-empty path and a non-zero width. -/
def usableVariant (v : Variant) : Bool :=
  (match v.path with
   | some p => !(p == "")
   | none => false)
  &&
  (match v.width with
   | some w => !(w == 0)
   | none => false)

/-- `format_priority` from `_build_picture_element`. -/
def formatPriority : List String := ["avif", "webp", "jpg", "jpeg", "png"]

/-- `fallback_priority` from `_build_picture_element`. -/
def fallbackPriority : List String := ["jpg", "jpeg", "png", "webp", "avif"]

/-- `mime_overrides.get(fmt, f"image/{fmt}")`. -/
def mimeOf (fmt : String) : String :=
  if fmt == "jpg" || fmt == "jpeg" then "image/jpeg" else "image/" ++ fmt

/-- One `f"/{path} {width}w"` piece of a srcset. -/
def variantPiece (v : Variant) : String :=
  "/" ++ v.path.getD "" ++ " " ++ toString (widthD v) ++ "w"

/-- `", ".join(...)` over the variant pieces. -/
def srcsetOf : List Variant → String
  | [] => ""
  | [v] => variantPiece v
  | v :: w :: rest => variantPiece v ++ ", " ++ srcsetOf (w :: rest)

/-- The `<source ...>` string built inside the format loop. -/
def mkSourceTag (mime srcset sizes : String) : String :=
  "<source type=\"" ++ mime ++ "\" srcset=\"" ++ srcset ++ "\" sizes=\"" ++ sizes ++ "\">"

/-- Attribute names lowercased, as in `{name.lower(): value for ...}`. -/
def attrsLower (attrs : Attrs) : Attrs := attrs.map (fun p => (lowerStr p.1, p.2))

/-- `attrs_dict.get("data-img-sizes") or attrs_dict.get("sizes") or "100vw"`. -/
def sizesValue (attrs : Attrs) : String :=
  match pyOrStr (dictGet (attrsLower attrs) "data-img-sizes") with
  | some v => v
  | none =>
    match pyOrStr (dictGet (attrsLower attrs) "sizes") with
    | some v => v
    | none => "100vw"

/-- One iteration of the `for fmt in format_priority` loop: the `<source>`
string contributed by `fmt`, or `none` when the loop `continue`s. -/
def sourceFor (entry : ManifestEntry) (sizes : String) (fmt : String) : Option String :=
  match dictGet entry fmt with
  | none => none
  | some variants =>
    if variants.isEmpty then none
    else
      let sortedVariants := sortByWidth (variants.filter usableVariant)
      if sortedVariants.isEmpty then none
      else some (mkSourceTag (mimeOf fmt) (srcsetOf sortedVariants) sizes)

/-- The `sources` list accumulated by `_build_picture_element`. -/
def pictureSources (attrs : Attrs) (entry : ManifestEntry) : List String :=
  formatPriority.filterMap (sourceFor entry (sizesValue attrs))

/-- Python truthiness of `manifest_entry.get(fmt)`. -/
def truthyVariants : Option (List Variant) → Bool
  | some l => !l.isEmpty
  | none => false

/-- The attribute names dropped from the original tag when building the
fallback `<img>`. -/
def replacedAttrNames : List String := ["src", "srcset", "sizes", "data-img-sizes"]

/-- The fallback `<img ...>` string of `_build_picture_element`, given the
already sorted usable fallback variants `fv` (non-empty on the code path). -/
def fallbackImgTag (attrs : Attrs) (sizes : String) (fv : List Variant) : String :=
  let lastV := fv.getLastD (Variant.mk none none)
  let fallbackSrc := "/" ++ lastV.path.getD ""
  let fallbackSrcset := srcsetOf fv
  let filteredAttrs := attrs.filter (fun p => !(replacedAttrNames.contains (lowerStr p.1)))
  let fallbackAttrs := ("src", some fallbackSrc) :: filteredAttrs
      ++ (if fallbackSrcset == "" then [] else [("srcset", some fallbackSrcset)])
      ++ [("sizes", some sizes)]
  "<img" ++ render_attributes fallbackAttrs ++ ">"

/-- The usable variants of a format, sorted ascending by width: the
`sorted_variants` and `fallback_variants` expression of
`_build_picture_element`. -/
def usableSorted (entry : ManifestEntry) (fmt : String) : List Variant :=
  sortByWidth (((dictGet entry fmt).getD []).filter usableVariant)

/-- Embeds `_build_picture_element` from `src/main.py` (`sizes_value` is
computed by the pure `sizesValue` at each use site). -/
def build_picture_element (attrs : Attrs) (entry : ManifestEntry) : Option String :=
  if entry.isEmpty then none
  else if (pictureSources attrs entry).isEmpty then none
  else
    match List.find? (fun fmt => truthyVariants (dictGet entry fmt)) fallbackPriority with
    | none => none
    | some fallbackFormat =>
      if (usableSorted entry fallbackFormat).isEmpty then none
      else
        some ("<picture>" ++ String.join (pictureSources attrs entry)
          ++ fallbackImgTag attrs (sizesValue attrs) (usableSorted entry fallbackFormat)
          ++ "</picture>")

/-- The normalization of the `src` attribute in `_build_replacement`:
strip query and fragment, strip every leading slash, strip one leading
`./`. -/
def normalizedSrc (src : String) : String :=
  let n0 := beforeFirst src.toList '?'
  let n1 := beforeFirst n0 '#'
  let n2 := n1.dropWhile (fun c => c == '/')
  if listStartsWith n2 ['.', '/'] then String.mk (n2.drop 2) else String.mk n2

/-- The part of the normalized src after the first `assets/images/`
segment, or `none` when the segment does not occur. -/
def srcSegmentSplit (src : String) : Option String :=
  (subAfter (normalizedSrc src).toList ("assets/images/".toList)).map String.mk

/-- The manifest key looked up for a given `src` value: the base name of
the path after the `assets/images/` segment. -/
def imgLookupKey (src : String) : Option String :=
  (srcSegmentSplit src).map pyBasename

/-- Embeds `ImageReplacementParser._build_replacement`. -/
def build_replacement (manifest : Manifest) (attrs : Attrs) : Option String :=
  match pyOrStr (dictGet (attrsLower attrs) "src") with
  | none => none
  | some src =>
    match imgLookupKey src with
    | none => none
    | some base =>
      match dictGet manifest base with
      | none => none
      | some entry =>
        if entry.isEmpty then none
        else build_picture_element attrs entry

/-! ### The token stream of the streaming rewriter

`ImageReplacementParser` subclasses the standard library `html.parser`,
which delivers the input as a token sequence.  The tokens and the output
each handler appends are embedded below; a small tokenizer models the
standard library lexer on well-formed fragments (attribute values in
double or single quotes or unquoted; entity references are not expanded
inside attribute values, none occur in the inputs considered). -/

/-- One event delivered by the HTML tokenizer.  A start tag carries its
original text (`get_starttag_text`), its lowercased name and its
attribute list; `handle_startendtag` delegates to the same handler as
`handle_starttag`, so both become `startTag`. -/
inductive Token where
  | startTag (raw : String) (name : String) (attrs : Attrs)
  | endTag (name : String)
  | dataTok (s : String)
  | comment (s : String)
  | decl (s : String)
  | entityRef (s : String)
  | charRef (s : String)
  | pi (s : String)
deriving DecidableEq

/-- Is the character HTML whitespace (space, tab, LF, CR, FF). -/
def isSpaceB (c : Char) : Bool :=
  c.toNat == 32 || c.toNat == 9 || c.toNat == 10 || c.toNat == 13 || c.toNat == 12

/-- Does the character end a tag name. -/
def isTagDelim (c : Char) : Bool := isSpaceB c || c == '/' || c == '>'

/-- Does the character end an attribute name. -/
def isAttrDelim (c : Char) : Bool := isSpaceB c || c == '/' || c == '=' || c == '>'

/-- Characters before the first `>` and the rest after it. -/
def takeUntilGt : List Char → List Char × List Char
  | [] => ([], [])
  | c :: rest =>
    if c == '>' then ([], rest)
    else
      let p := takeUntilGt rest
      (c :: p.1, p.2)

/-- Characters before the first occurrence of `sep` and the rest after it. -/
def takeUntilChar (sep : Char) : List Char → List Char × List Char
  | [] => ([], [])
  | c :: rest =>
    if c == sep then ([], rest)
    else
      let p := takeUntilChar sep rest
      (c :: p.1, p.2)

/-- Characters before the first occurrence of the pattern and the rest
after it (whole input and `[]` when the pattern does not occur). -/
def takeUntilSub (pat : List Char) : List Char → List Char × List Char
  | [] => ([], [])
  | c :: cs =>
    if listStartsWith (c :: cs) pat then ([], List.drop pat.length (c :: cs))
    else
      let p := takeUntilSub pat cs
      (c :: p.1, p.2)

/-- Parse the attribute section of a start tag, returning the attributes
(names lowercased) and the input remaining after the closing `>`.  The
fuel argument only serves termination; it is chosen large enough for the
whole section. -/
def parseAttrs : Nat → List Char → Attrs → Attrs × List Char
  | 0, cs, acc => (acc.reverse, cs)
  | _ + 1, [], acc => (acc.reverse, [])
  | fuel + 1, c :: rest, acc =>
    if isSpaceB c then parseAttrs fuel rest acc
    else if c == '>' then (acc.reverse, rest)
    else if c == '/' then parseAttrs fuel rest acc
    else
      let name := (c :: rest).takeWhile (fun ch => !(isAttrDelim ch))
      let lowName := lowerStr (String.mk name)
      let after := ((c :: rest).drop name.length).dropWhile isSpaceB
      match after with
      | [] => ((acc.reverse) ++ [(lowName, none)], [])
      | eq :: rest2 =>
        if eq == '=' then
          let rest3 := rest2.dropWhile isSpaceB
          match rest3 with
          | [] => ((acc.reverse) ++ [(lowName, some "")], [])
          | q :: rest4 =>
            if q.toNat == 34 || q.toNat == 39 then
              let p := takeUntilChar q rest4
              parseAttrs fuel p.2 ((lowName, some (String.mk p.1)) :: acc)
            else
              let v := rest3.takeWhile (fun ch => !(isSpaceB ch || ch == '>'))
              parseAttrs fuel (rest3.drop v.length) ((lowName, some (String.mk v)) :: acc)
        else parseAttrs fuel after ((lowName, none) :: acc)

/-- The tokenizer main loop; each produced token consumes at least one
character, so fuel `length + 1` covers the input. -/
def tokenizeAux : Nat → List Char → List Token → List Token
  | 0, _, acc => acc.reverse
  | _ + 1, [], acc => acc.reverse
  | fuel + 1, c :: rest, acc =>
    if c == '<' then
      if listStartsWith rest ['!', '-', '-'] then
        let p := takeUntilSub ['-', '-', '>'] (rest.drop 3)
        tokenizeAux fuel p.2 (Token.comment (String.mk p.1) :: acc)
      else if listStartsWith rest ['!'] then
        let p := takeUntilGt (rest.drop 1)
        tokenizeAux fuel p.2 (Token.decl (String.mk p.1) :: acc)
      else if listStartsWith rest ['/'] then
        let p := takeUntilGt (rest.drop 1)
        tokenizeAux fuel p.2
          (Token.endTag (lowerStr (String.mk
            (((p.1.dropWhile isSpaceB).reverse.dropWhile isSpaceB).reverse))) :: acc)
      else if listStartsWith rest ['?'] then
        let p := takeUntilGt (rest.drop 1)
        tokenizeAux fuel p.2 (Token.pi (String.mk p.1) :: acc)
      else
        match rest with
        | r :: _ =>
          if r.isAlpha then
            let name := rest.takeWhile (fun ch => !(isTagDelim ch))
            let afterName := rest.drop name.length
            let p := parseAttrs (afterName.length + 1) afterName []
            let consumed := (1 + rest.length) - p.2.length
            let raw := String.mk ((c :: rest).take consumed)
            tokenizeAux fuel p.2 (Token.startTag raw (lowerStr (String.mk name)) p.1 :: acc)
          else tokenizeAux fuel rest (Token.dataTok "<" :: acc)
        | [] => tokenizeAux fuel [] (Token.dataTok "<" :: acc)
    else if c == '&' then
      if listStartsWith rest ['#'] then
        let body := (rest.drop 1).takeWhile (fun ch => ch.isAlphanum)
        let after := (rest.drop 1).drop body.length
        match after with
        | semi :: rest2 =>
          if semi == ';' && !body.isEmpty then
            tokenizeAux fuel rest2 (Token.charRef (String.mk body) :: acc)
          else tokenizeAux fuel rest (Token.dataTok "&" :: acc)
        | [] => tokenizeAux fuel rest (Token.dataTok "&" :: acc)
      else
        let body := rest.takeWhile (fun ch => ch.isAlphanum)
        let after := rest.drop body.length
        match after with
        | semi :: rest2 =>
          if semi == ';' && !body.isEmpty then
            tokenizeAux fuel rest2 (Token.entityRef (String.mk body) :: acc)
          else tokenizeAux fuel rest (Token.dataTok "&" :: acc)
        | [] => tokenizeAux fuel rest (Token.dataTok "&" :: acc)
    else
      let run := (c :: rest).takeWhile (fun ch => !(ch == '<' || ch == '&'))
      tokenizeAux fuel ((c :: rest).drop run.length) (Token.dataTok (String.mk run) :: acc)

/-- Tokenize an HTML fragment. -/
def tokenize (s : String) : List Token := tokenizeAux (s.length + 1) s.toList []

/-- The output appended for one token: the handler methods of
`ImageReplacementParser` (`_handle_start`, `handle_endtag`, `handle_data`,
`handle_comment`, `handle_decl`, `handle_entityref`, `handle_charref`,
`handle_pi`). -/
def handleToken (manifest : Manifest) : Token → String
  | .startTag raw name attrs =>
    if lowerStr name == "img" then
      match build_replacement manifest attrs with
      | some r => r
      | none => raw
    else raw
  | .endTag name => "</" ++ name ++ ">"
  | .dataTok s => s
  | .comment s => "<!--" ++ s ++ "-->"
  | .decl s => "<!" ++ s ++ ">"
  | .entityRef s => "&" ++ s ++ ";"
  | .charRef s => "&#" ++ s ++ ";"
  | .pi s => "<?" ++ s ++ ">"

/-- `"".join(self.output)` over the handled tokens. -/
def processTokens (manifest : Manifest) : List Token → String
  | [] => ""
  | t :: rest => handleToken manifest t ++ processTokens manifest rest

/-- Embeds `replace_images_with_processed` from `src/main.py`. -/
def replace_images_with_processed (html : String) (manifest : Manifest) : String :=
  if html == "" || manifest.isEmpty then html
  else processTokens manifest (tokenize html)

/-! ### Slug reconciliation (full build, lines 640-652) -/

/-- `os.path.join(OUTPUT_DIR, slug)` with `OUTPUT_DIR = "."`. -/
def outDir (slug : String) : String := "./" ++ slug

/-- `removed = previous_slugs - current_slugs`, kept in the order of the
previous list (set iteration order is irrelevant to the claims, which are
stated through membership). -/
def removedSlugs (previous current : List String) : List String :=
  previous.filter (fun s => !(current.contains s))

/-- The output directories removed by the reconciliation loop: stale slugs
that are not post-prefixed, are not the root index, and whose output
directory exists (`os.path.isdir`). -/
def staleDeletions (previous current : List String) (isDir : String → Bool) : List String :=
  ((removedSlugs previous current).filter (fun slug =>
      !(strStartsWith slug "posts/") && !(slug == "index") && isDir (outDir slug))).map outDir

/-! ### Date parsing and the post sorts (lines 322-325 and 654-661) -/

def isDigitB (c : Char) : Bool := c.isDigit

def digitsToNat (cs : List Char) : Nat :=
  cs.foldl (fun acc c => acc * 10 + (c.toNat - 48)) 0

def isLeapYear (y : Nat) : Bool := (y % 4 == 0 && !(y % 100 == 0)) || y % 400 == 0

def daysInMonth (y m : Nat) : Nat :=
  if m == 2 then (if isLeapYear y then 29 else 28)
  else if m == 4 || m == 6 || m == 9 || m == 11 then 30
  else 31

/-- Validity of a calendar date as checked by the `datetime` constructor. -/
def validYMD (y m d : Nat) : Bool :=
  1 ≤ y && y ≤ 9999 && 1 ≤ m && m ≤ 12 && 1 ≤ d && d ≤ daysInMonth y m

/-- Parse one or two digits as the month or day field of
`strptime(s, "%Y-%m-%d")`: a two-digit group is taken when its value lies
in `1..hi`, otherwise a single digit `1..9`. -/
def parse2or1 (hi : Nat) : List Char → Option (Nat × List Char)
  | a :: b :: rest =>
    if isDigitB a && isDigitB b then
      let v := (a.toNat - 48) * 10 + (b.toNat - 48)
      if 1 ≤ v && v ≤ hi then some (v, rest)
      else if 1 ≤ a.toNat - 48 && a.toNat - 48 ≤ 9 then some (a.toNat - 48, b :: rest)
      else none
    else if isDigitB a && 1 ≤ a.toNat - 48 && a.toNat - 48 ≤ 9 then
      some (a.toNat - 48, b :: rest)
    else none
  | [a] =>
    if isDigitB a && 1 ≤ a.toNat - 48 && a.toNat - 48 ≤ 9 then some (a.toNat - 48, [])
    else none
  | [] => none

/-- Models `datetime.strptime(s, "%Y-%m-%d")`: exactly four year digits,
a dash, a one- or two-digit month, a dash, a one- or two-digit day, end of
input, and a valid calendar date; `none` when `strptime` raises. -/
def strptimeYMD (s : String) : Option (Nat × Nat × Nat) :=
  match s.toList with
  | y1 :: y2 :: y3 :: y4 :: rest =>
    if [y1, y2, y3, y4].all isDigitB then
      let y := digitsToNat [y1, y2, y3, y4]
      match rest with
      | d1 :: rest2 =>
        if d1 == '-' then
          match parse2or1 12 rest2 with
          | none => none
          | some (m, rest3) =>
            match rest3 with
            | d2 :: rest4 =>
              if d2 == '-' then
                match parse2or1 31 rest4 with
                | none => none
                | some (d, rest5) =>
                  if rest5.isEmpty && validYMD y m d then some (y, m, d) else none
              else none
            | [] => none
        else none
      | [] => none
    else none
  | _ => none

/-- A post record as it appears in `all_posts` and in the tag index: only
the normalized `date` field matters to the sorts; `slug` is carried as an
identity payload. -/
structure PostRec where
  date : Option String
  slug : String
deriving DecidableEq

/-- Lexicographic order on (year, month, day) keys. -/
def ymdLe (a b : Nat × Nat × Nat) : Bool :=
  a.1 < b.1 || (a.1 == b.1 &&
    (a.2.1 < b.2.1 || (a.2.1 == b.2.1 && a.2.2 ≤ b.2.2)))

/-- The sort key of `all_posts.sort` (line 654): `datetime.min` = year 1
for a missing or empty date, otherwise `strptime`, which may raise
(`none`). -/
def chronoKey (p : PostRec) : Option (Nat × Nat × Nat) :=
  match p.date with
  | some d => if d == "" then some (1, 1, 1) else strptimeYMD d
  | none => some (1, 1, 1)

/-- The sort key of the per-tag sort (line 323): `x["date"]` raises
`KeyError` on a missing date (`none`), then `strptime`. -/
def tagKeyOf (p : PostRec) : Option (Nat × Nat × Nat) :=
  match p.date with
  | some d => strptimeYMD d
  | none => none

/-- `list.sort(key=..., reverse=True)`: `none` when any key computation
raises, otherwise the stable descending sort. -/
def sortDescBy (key : PostRec → Option (Nat × Nat × Nat)) (posts : List PostRec) :
    Option (List PostRec) :=
  if posts.all (fun p => (key p).isSome) then
    some (List.insertionSort
      (fun a b => ymdLe ((key b).getD (1, 1, 1)) ((key a).getD (1, 1, 1)) = true) posts)
  else none

instance (key : PostRec → Option (Nat × Nat × Nat)) :
    DecidableRel (fun a b => ymdLe ((key b).getD (1, 1, 1)) ((key a).getD (1, 1, 1)) = true) :=
  fun _ _ => instDecidableEqBool _ _

/-- The chronological sort of `all_posts` (lines 654-661). -/
def sortAllPostsChrono (posts : List PostRec) : Option (List PostRec) :=
  sortDescBy chronoKey posts

/-- The per-tag sort in `tag_pages` (lines 322-325). -/
def sortPostsForTag (posts : List PostRec) : Option (List PostRec) :=
  sortDescBy tagKeyOf posts

/-! ### Date normalization in `parse_file` (lines 303-314) -/

/-- A metadata `date` value after YAML parsing: a `datetime.datetime`
instance, a `datetime.date` instance (YAML timestamp scalars), or a plain
string. -/
inductive DateVal where
  | dtObj (y m d : Nat)
  | dateObj (y m d : Nat)
  | strVal (s : String)
deriving DecidableEq

/-- Python truthiness of a date value (`page_config["date"]`). -/
def dateTruthy : DateVal → Bool
  | .strVal s => !(s == "")
  | _ => true

def pad2 (n : Nat) : String := if n < 10 then "0" ++ toString n else toString n

def pad4 (n : Nat) : String :=
  if n < 10 then "000" ++ toString n
  else if n < 100 then "00" ++ toString n
  else if n < 1000 then "0" ++ toString n
  else toString n

/-- `strftime("%Y-%m-%d")` as rendered by glibc: month and day zero-padded
to two digits, the year printed without padding (identical to four-digit
zero padding for every year of at least 1000). -/
def formatYMD (y m d : Nat) : String := toString y ++ "-" ++ pad2 m ++ "-" ++ pad2 d

/-- `str(datetime.date(y, m, d))`: the ISO form with the year padded to
four digits. -/
def isoStrOfDate (y m d : Nat) : String := pad4 y ++ "-" ++ pad2 m ++ "-" ++ pad2 d

/-- Models `datetime.fromisoformat` on date-only strings (CPython 3.11+):
the extended form `YYYY-MM-DD` with zero-padded fields, or the basic form
`YYYYMMDD`, and a valid calendar date; every other string is rejected.
Strings with a time part or ISO week numbers are outside the modelled
input domain (none arises in the pipeline). -/
def fromisoformatDate (s : String) : Option (Nat × Nat × Nat) :=
  match s.toList with
  | [a, b, c, d, s1, e, f, s2, g, h] =>
    if [a, b, c, d, e, f, g, h].all isDigitB && s1 == '-' && s2 == '-' then
      let y := digitsToNat [a, b, c, d]
      let m := digitsToNat [e, f]
      let dd := digitsToNat [g, h]
      if validYMD y m dd then some (y, m, dd) else none
    else none
  | [a, b, c, d, e, f, g, h] =>
    if [a, b, c, d, e, f, g, h].all isDigitB then
      let y := digitsToNat [a, b, c, d]
      let m := digitsToNat [e, f]
      let dd := digitsToNat [g, h]
      if validYMD y m dd then some (y, m, dd) else none
    else none
  | _ => none

/-- Embeds the date-normalization block of `parse_file` (lines 303-314):
the new value of the `date` field. -/
def normalizeDateField (v : Option DateVal) : Option DateVal :=
  match v with
  | none => none
  | some dv =>
    if !(dateTruthy dv) then some dv
    else
      match dv with
      | .dtObj y m d => some (.strVal (formatYMD y m d))
      | .dateObj y m d =>
        match fromisoformatDate (isoStrOfDate y m d) with
        | some (y2, m2, d2) => some (.strVal (formatYMD y2 m2 d2))
        | none => some (.dateObj y m d)
      | .strVal s =>
        match fromisoformatDate s with
        | some (y2, m2, d2) => some (.strVal (formatYMD y2 m2 d2))
        | none => some (.strVal s)

/-! ### Draft filtering and the full-build lists (lines 609-638) -/

/-- A scalar metadata value as produced by YAML for the `draft` field. -/
inductive MetaVal where
  | vStr (s : String)
  | vBool (b : Bool)
  | vInt (n : Int)
  | vNone
deriving DecidableEq

/-- Python `str` on such a value. -/
def pyStrVal : MetaVal → String
  | .vStr s => s
  | .vBool b => if b then "True" else "False"
  | .vInt n => toString n
  | .vNone => "None"

/-- `str(page_data.get("draft"))`: a missing key is `None`. -/
def pyStrOpt : Option MetaVal → String
  | some v => pyStrVal v
  | none => "None"

/-- `str(page_data.get("draft")).lower() in ("true", "1", "yes")`. -/
def draftSkip (d : Option MetaVal) : Bool :=
  ["true", "1", "yes"].contains (lowerStr (pyStrOpt d))

/-- The document survives the draft filter. -/
def draftKeep (d : Option MetaVal) : Bool := !draftSkip d

/-- A parsed document as the build loops see it: the metadata fields the
loops read, with `tags` already coerced by `page_data.get("tags") or []`. -/
structure Doc where
  slug : String
  draft : Option MetaVal
  layout : Option String
  tags : List String
  url : String
deriving DecidableEq

/-- The four lists accumulated by the full build. -/
structure BuildLists where
  pages : List Doc
  sitemap : List String
  allPosts : List Doc
  tagIndex : List (String × List Doc)
deriving DecidableEq

def emptyLists : BuildLists := ⟨[], [], [], []⟩

/-- `tags.setdefault(tag, []).append(page_data)`. -/
def tagAdd (m : List (String × List Doc)) (t : String) (d : Doc) :
    List (String × List Doc) :=
  match m with
  | [] => [(t, [d])]
  | (k, l) :: rest => if k == t then (k, l ++ [d]) :: rest else (k, l) :: tagAdd rest t d

/-- The `for tag in page_data.get("tags") or []` loop. -/
def addTags (m : List (String × List Doc)) (d : Doc) : List (String × List Doc) :=
  d.tags.foldl (fun acc t => tagAdd acc t d) m

/-- The posts of one tag in the index (dict lookup). -/
def tagsOf (m : List (String × List Doc)) (t : String) : List Doc :=
  match m with
  | [] => []
  | (k, l) :: rest => if k == t then l else tagsOf rest t

/-- One iteration of the top-level content loop (lines 609-620). -/
def contentStep (st : BuildLists) (d : Doc) : BuildLists :=
  if draftSkip d.draft then st
  else { st with pages := st.pages ++ [d], sitemap := st.sitemap ++ [d.url] }

/-- One iteration of the posts loop (lines 622-638). -/
def postStep (st : BuildLists) (d : Doc) : BuildLists :=
  if draftSkip d.draft then st
  else
    let st1 := { st with pages := st.pages ++ [d], sitemap := st.sitemap ++ [d.url] }
    if d.layout == some "post" then
      { st1 with allPosts := st1.allPosts ++ [d], tagIndex := addTags st1.tagIndex d }
    else st1

def collectContent : List Doc → BuildLists → BuildLists
  | [], st => st
  | d :: rest, st => collectContent rest (contentStep st d)

def collectPosts : List Doc → BuildLists → BuildLists
  | [], st => st
  | d :: rest, st => collectPosts rest (postStep st d)

/-- The full-build accumulation over the content and posts directories. -/
def fullBuildLists (content posts : List Doc) : BuildLists :=
  collectPosts posts (collectContent content emptyLists)

/-! ### Single-file incremental build (lines 567-580) -/

/-- `os.path.splitext(name)[0]` on a path-free name: the part before the
last dot, unless every character before that dot is itself a dot. -/
def beforeLastDot : List Char → Option (List Char)
  | [] => none
  | c :: rest =>
    match beforeLastDot rest with
    | some r => some (c :: r)
    | none => if c == '.' then some [] else none

def splitextStem (s : String) : String :=
  match beforeLastDot s.toList with
  | none => s
  | some pre => if pre.any (fun c => !(c == '.')) then String.mk pre else s

/-- `posixpath.normpath` component processing for the paths in scope (the
POSIX double-initial-slash special case is not modelled). -/
def normParts : List String → List String → List String
  | [], stack => stack.reverse
  | p :: rest, stack =>
    if p == "" || p == "." then normParts rest stack
    else if p == ".." then
      match stack with
      | [] => normParts rest [".."]
      | top :: stk =>
        if top == ".." then normParts rest (".." :: top :: stk) else normParts rest stk
    else normParts rest (p :: stack)

/-- Split a character list at a separator character (`str.split(sep)`). -/
def splitCharAux (sep : Char) : List Char → List Char → List String
  | [], acc => [String.mk acc.reverse]
  | c :: rest, acc =>
    if c == sep then String.mk acc.reverse :: splitCharAux sep rest []
    else splitCharAux sep rest (c :: acc)

def splitSlash (s : String) : List String := splitCharAux '/' s.toList []

/-- `"/".join(parts)`. -/
def joinSlash : List String → String
  | [] => ""
  | [x] => x
  | x :: y :: rest => x ++ "/" ++ joinSlash (y :: rest)

def pyNormpath (s : String) : String :=
  if s == "" then "."
  else
    let isAbs := strStartsWith s "/"
    let body := joinSlash (normParts (splitSlash s) [])
    if isAbs then (if body == "" then "/" else "/" ++ body)
    else (if body == "" then "." else body)

/-- The canonical URL assigned by `parse_file` (lines 294-301). -/
def urlOfSource (filepath : String) : String :=
  let slug := splitextStem (pyBasename filepath)
  if strStartsWith (pyNormpath filepath) (pyNormpath "content/posts") then "/posts/" ++ slug
  else if slug == "index" then "/"
  else "/" ++ slug

/-- The directory into which `render_page` writes `index.html` for a
document (lines 364-369): the output root for the root URL, otherwise the
URL path joined under the output root. -/
def outputDirOfSource (filepath : String) : String :=
  let url := urlOfSource filepath
  if url == "/" then "."
  else outDir (String.mk (url.toList.dropWhile (fun c => c == '/')))

/-- The externally observable actions of the `--file` branch of `main`. -/
inductive BuildAction where
  | removeDir (d : String)
  | removeCache
  | compileFile (f : String)
  | renderFile (f : String)
deriving DecidableEq

/-- Trace-level model of the `--file` branch (lines 567-596): when the
file is missing, the deletion handling of lines 569-580; otherwise
`parse_file` followed by `render_page`, modelled as opaque actions
(`has_file_changed` only logs on this path and is omitted). -/
def singleFileBuild (file : String) (fileExists : Bool) (isDir : String → Bool)
    (cacheExists : Bool) : List BuildAction :=
  if fileExists then [BuildAction.compileFile file, BuildAction.renderFile file]
  else
    let slug := splitextStem (pyBasename file)
    (if slug == "index" then []
     else if isDir (outDir slug) then [BuildAction.removeDir (outDir slug)] else [])
    ++ (if cacheExists then [BuildAction.removeCache] else [])

/-! ### Spec-side formulations

These definitions follow the wording of the specification, to be compared
with the embedded code above. -/

/-- Spec wording: the format has at least one variant possessing both a
path and a positive width (an empty path or missing field does not
count, matching Python truthiness). -/
def hasUsableVariant (entry : ManifestEntry) (fmt : String) : Bool :=
  ((dictGet entry fmt).getD []).any usableVariant

/-- Spec wording: the value of an attribute that is present.  Presence is
value presence in the Python sense: a valueless attribute or one with an
empty value counts as absent. -/
def attrValuePresent (attrs : Attrs) (name : String) : Option String :=
  pyOrStr (dictGet (attrsLower attrs) name)

/-- Spec wording: the `data-img-sizes` attribute if present, else the
`sizes` attribute, else `100vw`. -/
def sizesSpec (attrs : Attrs) : String :=
  match attrValuePresent attrs "data-img-sizes" with
  | some v => v
  | none =>
    match attrValuePresent attrs "sizes" with
    | some v => v
    | none => "100vw"

/-- Spec wording of the candidate `<source>` construction: iterate the
fixed priority list, keep exactly the formats with at least one usable
variant, and for each emit one `<source>` whose srcset lists the usable
variants sorted ascending by width. -/
def sourcesSpec (attrs : Attrs) (entry : ManifestEntry) : List String :=
  (formatPriority.filter (hasUsableVariant entry)).map (fun fmt =>
    mkSourceTag (mimeOf fmt) (srcsetOf (usableSorted entry fmt)) (sizesSpec attrs))

/-! ### Helper lemmas -/

lemma sortByWidth_eq_nil {l : List Variant} : sortByWidth l = [] ↔ l = [] := by
  constructor
  · intro h
    have hlen := (List.perm_insertionSort widthLe l).length_eq
    rw [sortByWidth] at h
    rw [h] at hlen
    exact List.length_eq_zero.mp hlen.symm
  · intro h
    subst h
    rfl

lemma filter_usable_eq_nil {l : List Variant} :
    l.filter usableVariant = [] ↔ l.any usableVariant = false := by
  rw [List.filter_eq_nil_iff, List.any_eq_false]

lemma sourceFor_eq (entry : ManifestEntry) (sizes : String) (fmt : String) :
    sourceFor entry sizes fmt =
      if hasUsableVariant entry fmt then
        some (mkSourceTag (mimeOf fmt) (srcsetOf (usableSorted entry fmt)) sizes)
      else none := by
  cases hdg : dictGet entry fmt with
  | none => simp [sourceFor, hasUsableVariant, usableSorted, hdg, sortByWidth]
  | some l =>
    simp only [sourceFor, hasUsableVariant, usableSorted, hdg, Option.getD_some]
    by_cases hl : l = []
    · subst hl
      simp [sortByWidth]
    · rw [if_neg (by simpa [List.isEmpty_iff] using hl)]
      by_cases hu : l.any usableVariant
      · have hne : ¬(sortByWidth (l.filter usableVariant)).isEmpty := by
          rw [List.isEmpty_iff, sortByWidth_eq_nil, filter_usable_eq_nil]
          simp [hu]
        rw [if_neg hne, if_pos hu]
      · have he : (sortByWidth (l.filter usableVariant)).isEmpty := by
          rw [List.isEmpty_iff, sortByWidth_eq_nil, filter_usable_eq_nil]
          simpa using hu
        rw [if_pos he, if_neg hu]

lemma filterMap_eq_filter_map {α β : Type} (l : List α) (f : α → Option β)
    (p : α → Bool) (g : α → β)
    (h : ∀ a, f a = if p a then some (g a) else none) :
    l.filterMap f = (l.filter p).map g := by
  induction l with
  | nil => rfl
  | cons a rest ih =>
    rw [List.filterMap_cons, List.filter_cons]
    by_cases hp : p a
    · simp only [h a, hp, if_true]
      rw [ih]
      simp
    · simp only [h a, hp, if_false]
      rw [ih]
      simp [hp]

lemma outDir_inj {a b : String} (h : outDir a = outDir b) : a = b := by
  have h2 := congrArg String.data h
  simp only [outDir, String.data_append] at h2
  exact String.ext (List.append_cancel_left h2)

lemma mem_removedSlugs {previous current : List String} {s : String} :
    s ∈ removedSlugs previous current ↔ (s ∈ previous ∧ s ∉ current) := by
  simp [removedSlugs, List.mem_filter, List.contains, List.elem_iff]

lemma mem_staleDeletions {previous current : List String} {isDir : String → Bool}
    {d : String} :
    d ∈ staleDeletions previous current isDir ↔
      ∃ s, s ∈ removedSlugs previous current ∧ strStartsWith s "posts/" = false ∧
        s ≠ "index" ∧ isDir (outDir s) = true ∧ outDir s = d := by
  constructor
  · intro hd
    rcases List.mem_map.mp hd with ⟨s, hs, hout⟩
    rcases List.mem_filter.mp hs with ⟨h1, h2⟩
    simp only [Bool.and_eq_true, Bool.not_eq_true', beq_eq_false_iff_ne] at h2
    exact ⟨s, h1, h2.1.1, h2.1.2, h2.2, hout⟩
  · rintro ⟨s, h1, h2, h3, h4, h5⟩
    refine List.mem_map.mpr ⟨s, List.mem_filter.mpr ⟨h1, ?_⟩, h5⟩
    simp only [Bool.and_eq_true, Bool.not_eq_true', beq_eq_false_iff_ne]
    exact ⟨⟨h2, h3⟩, h4⟩

/-! ### Claim theorems -/

set_option maxRecDepth 40000 in
/-- Claim C1: on the input `<img src="/assets/images/cat.jpg" alt="c">`
with the two-variant jpg manifest entry for `cat.jpg`, the rewriter
returns exactly the expected `<picture>` fragment, with no whitespace
between the child elements. -/
theorem c1_rewrite_cat_roundtrip :
    replace_images_with_processed "<img src=\"/assets/images/cat.jpg\" alt=\"c\">"
      [("cat.jpg", [("jpg", [Variant.mk (some "img/cat-400.jpg") (some 400),
                             Variant.mk (some "img/cat-800.jpg") (some 800)])])]
    = "<picture><source type=\"image/jpeg\" srcset=\"/img/cat-400.jpg 400w, /img/cat-800.jpg 800w\" sizes=\"100vw\"><img src=\"/img/cat-800.jpg\" alt=\"c\" srcset=\"/img/cat-400.jpg 400w, /img/cat-800.jpg 800w\" sizes=\"100vw\"></picture>" := by
  decide

/-- Claim C2: the stale slugs are exactly previous minus current; a stale
slug that is post-prefixed or is the root index is never deleted; every
other stale slug with an existing output directory is deleted; and no
output directory of a current slug is deleted. -/
theorem c2_stale_slug_reconciliation (previous current : List String)
    (isDir : String → Bool) :
    (∀ s, s ∈ removedSlugs previous current ↔ (s ∈ previous ∧ s ∉ current))
    ∧ (∀ s, strStartsWith s "posts/" = true ∨ s = "index" →
        outDir s ∉ staleDeletions previous current isDir)
    ∧ (∀ s, s ∈ removedSlugs previous current → strStartsWith s "posts/" = false →
        s ≠ "index" → isDir (outDir s) = true →
        outDir s ∈ staleDeletions previous current isDir)
    ∧ (∀ s, s ∈ current → outDir s ∉ staleDeletions previous current isDir) := by
  refine ⟨fun s => mem_removedSlugs, ?_, ?_, ?_⟩
  · intro s h hmem
    rcases mem_staleDeletions.mp hmem with ⟨s2, _, h2, h3, _, h5⟩
    have hss : s2 = s := outDir_inj h5
    subst hss
    rcases h with h | h
    · rw [h2] at h
      exact Bool.false_ne_true h
    · exact h3 h
  · intro s h1 h2 h3 h4
    exact mem_staleDeletions.mpr ⟨s, h1, h2, h3, h4, rfl⟩
  · intro s hs hmem
    rcases mem_staleDeletions.mp hmem with ⟨s2, h1, _, _, _, h5⟩
    have hss : s2 = s := outDir_inj h5
    subst hss
    exact (mem_removedSlugs.mp h1).2 hs

/-- Witness for C2 at a concrete input: the stale non-post slug `about`
with an existing directory is deleted. -/
theorem c2_stale_slug_reconciliation_witness :
    outDir "about" ∈ staleDeletions ["about", "posts/old", "index", "keep"] ["keep"]
      (fun _ => true) :=
  (c2_stale_slug_reconciliation ["about", "posts/old", "index", "keep"] ["keep"]
      (fun _ => true)).2.2.1 "about" (by decide) (by decide) (by decide) (by decide)

/-- Claim C3: the `<source>` list equals its specification — one source
per format with at least one usable variant, in the fixed priority order,
with the usable variants sorted ascending into the srcset, the stated
mime type and the shared sizes value — and the sizes value follows the
`data-img-sizes`, `sizes`, `100vw` chain. -/
theorem c3_source_construction (attrs : Attrs) (entry : ManifestEntry) :
    pictureSources attrs entry = sourcesSpec attrs entry
    ∧ sizesValue attrs = sizesSpec attrs := by
  constructor
  · exact filterMap_eq_filter_map formatPriority _ _ _
      (fun fmt => sourceFor_eq entry (sizesValue attrs) fmt)
  · rfl

lemma hasUsable_imp_truthy (entry : ManifestEntry) (fmt : String)
    (h : hasUsableVariant entry fmt = true) :
    truthyVariants (dictGet entry fmt) = true := by
  unfold hasUsableVariant at h
  cases hdg : dictGet entry fmt with
  | none => rw [hdg] at h; simp at h
  | some l =>
    rw [hdg] at h
    rcases List.any_eq_true.mp h with ⟨v, hv, _⟩
    simp only [Option.getD_some] at hv
    have hlne : l ≠ [] := by
      intro hnil
      rw [hnil] at hv
      exact List.not_mem_nil v hv
    simp [truthyVariants, List.isEmpty_iff, hlne]

lemma find?_congr_of_imp {α : Type} {p q : α → Bool}
    (hpq : ∀ x, q x = true → p x = true) :
    ∀ (l : List α) (a : α), l.find? p = some a → q a = true → l.find? q = some a := by
  intro l
  induction l with
  | nil => intro a hfind _; simp at hfind
  | cons x xs ih =>
    intro a hfind hqa
    cases hpx : p x with
    | true =>
      rw [List.find?_cons_of_pos _ hpx] at hfind
      have hax := Option.some.inj hfind
      subst hax
      exact List.find?_cons_of_pos _ hqa
    | false =>
      have hqx : q x = false := by
        cases hqx2 : q x
        · rfl
        · rw [hpq x hqx2] at hpx; exact absurd hpx (by simp)
      rw [List.find?_cons_of_neg _ (by simp [hpx])] at hfind
      rw [List.find?_cons_of_neg _ (by simp [hqx])]
      exact ih a hfind hqa

lemma getLastD_mem {α : Type} : ∀ (l : List α) (d : α), l ≠ [] → l.getLastD d ∈ l := by
  intro l
  induction l with
  | nil => intro d hne; exact absurd rfl hne
  | cons x xs ih =>
    intro d _
    rw [List.getLastD_cons]
    by_cases hxs : xs = []
    · subst hxs
      exact List.mem_singleton.mpr rfl
    · exact List.mem_cons_of_mem x (ih x hxs)

lemma sorted_widthLe_getLastD :
    ∀ (l : List Variant) (d : Variant), List.Sorted widthLe l →
      ∀ v ∈ l, widthLe v (l.getLastD d) := by
  intro l
  induction l with
  | nil => intro d _ v hv; exact absurd hv (List.not_mem_nil v)
  | cons x xs ih =>
    intro d hs v hv
    rw [List.getLastD_cons]
    by_cases hxs : xs = []
    · subst hxs
      have hvx : v = x := by simpa using hv
      subst hvx
      show widthD v ≤ widthD v
      exact Nat.le_refl _
    · rcases List.mem_cons.mp hv with hvx | hvxs
      · subst hvx
        exact List.rel_of_sorted_cons hs _ (getLastD_mem xs v hxs)
      · exact ih x hs.of_cons v hvxs

lemma variantPiece_length_pos (v : Variant) : 0 < (variantPiece v).length := by
  have e1 : ("/" : String).length = 1 := rfl
  simp only [variantPiece, String.length_append, e1]
  omega

lemma srcsetOf_ne_empty (v : Variant) (vs : List Variant) : srcsetOf (v :: vs) ≠ "" := by
  intro h
  have h2 := congrArg String.length h
  have e0 : ("" : String).length = 0 := rfl
  have hp := variantPiece_length_pos v
  cases vs with
  | nil =>
    simp only [srcsetOf] at h2
    rw [e0] at h2
    omega
  | cons w rest =>
    simp only [srcsetOf, String.length_append] at h2
    rw [e0] at h2
    omega

/-- Claim C4: when an image is rewritten, the fallback `<img>` is built
from the first format in the order jpg, jpeg, png, webp, avif that has
usable variants: its usable variants sorted ascending form the srcset,
the largest-width (last sorted) variant becomes the root-absolutized
`src`, and the original attributes are retained except `src`, `srcset`,
`sizes` and `data-img-sizes`, which are replaced by the computed values
with `sizes` re-appended. -/
theorem c4_fallback_img (attrs : Attrs) (entry : ManifestEntry) (out : String)
    (h : build_picture_element attrs entry = some out) :
    ∃ fmt, List.find? (hasUsableVariant entry) fallbackPriority = some fmt ∧
      usableSorted entry fmt ≠ [] ∧
      List.Sorted widthLe (usableSorted entry fmt) ∧
      (usableSorted entry fmt).Perm (((dictGet entry fmt).getD []).filter usableVariant) ∧
      (∀ v ∈ usableSorted entry fmt,
        widthLe v ((usableSorted entry fmt).getLastD (Variant.mk none none))) ∧
      fallbackImgTag attrs (sizesValue attrs) (usableSorted entry fmt)
        = "<img" ++ render_attributes
            (("src", some ("/" ++
                ((usableSorted entry fmt).getLastD (Variant.mk none none)).path.getD ""))
              :: attrs.filter (fun p => !(replacedAttrNames.contains (lowerStr p.1)))
              ++ [("srcset", some (srcsetOf (usableSorted entry fmt))),
                  ("sizes", some (sizesValue attrs))]) ++ ">" ∧
      out = "<picture>" ++ String.join (pictureSources attrs entry)
          ++ fallbackImgTag attrs (sizesValue attrs) (usableSorted entry fmt)
          ++ "</picture>" := by
  by_cases h0 : entry.isEmpty
  · rw [build_picture_element, if_pos h0] at h; cases h
  · rw [build_picture_element, if_neg h0] at h
    by_cases h1 : (pictureSources attrs entry).isEmpty
    · rw [if_pos h1] at h; cases h
    · rw [if_neg h1] at h
      split at h
      · cases h
      · rename_i fbf hfind
        by_cases h2 : (usableSorted entry fbf).isEmpty
        · rw [if_pos h2] at h; cases h
        · rw [if_neg h2] at h
          have hout := Option.some.inj h
          have hfvne : usableSorted entry fbf ≠ [] := fun hh => h2 (by rw [hh]; rfl)
          have hq : hasUsableVariant entry fbf = true := by
            cases hany : ((dictGet entry fbf).getD []).any usableVariant with
            | true => exact hany
            | false =>
              exfalso
              apply hfvne
              have hnil : ((dictGet entry fbf).getD []).filter usableVariant = [] :=
                filter_usable_eq_nil.mpr hany
              rw [usableSorted, hnil]
              rfl
          have hsrcset : srcsetOf (usableSorted entry fbf) ≠ "" := by
            obtain ⟨v0, rest, hc⟩ := List.exists_cons_of_ne_nil hfvne
            rw [hc]
            exact srcsetOf_ne_empty v0 rest
          refine ⟨fbf, ?_, hfvne, ?_, ?_, ?_, ?_, hout.symm⟩
          · exact find?_congr_of_imp (hasUsable_imp_truthy entry) fallbackPriority fbf
              hfind hq
          · exact List.sorted_insertionSort widthLe _
          · exact List.perm_insertionSort widthLe _
          · exact sorted_widthLe_getLastD _ _ (List.sorted_insertionSort widthLe _)
          · simp only [fallbackImgTag]
            rw [if_neg (by simpa using hsrcset)]
            simp [List.append_assoc]

/-- The manifest entry of the C1 example, reused by concrete witnesses. -/
def catEntry : ManifestEntry :=
  [("jpg", [Variant.mk (some "img/cat-400.jpg") (some 400),
            Variant.mk (some "img/cat-800.jpg") (some 800)])]

/-- The img attributes of the C1 example. -/
def catAttrs : Attrs := [("src", some "/assets/images/cat.jpg"), ("alt", some "c")]

/-- The rewritten output of the C1 example. -/
def catPicture : String :=
  "<picture><source type=\"image/jpeg\" srcset=\"/img/cat-400.jpg 400w, /img/cat-800.jpg 800w\" sizes=\"100vw\"><img src=\"/img/cat-800.jpg\" alt=\"c\" srcset=\"/img/cat-400.jpg 400w, /img/cat-800.jpg 800w\" sizes=\"100vw\"></picture>"

set_option maxRecDepth 40000 in
/-- Witness for C4: the cat manifest entry from C1, applied at the
concrete rewritten output. -/
theorem c4_fallback_img_witness :
    ∃ fmt, List.find? (hasUsableVariant catEntry) fallbackPriority = some fmt ∧
      usableSorted catEntry fmt ≠ [] ∧
      List.Sorted widthLe (usableSorted catEntry fmt) ∧
      (usableSorted catEntry fmt).Perm
        (((dictGet catEntry fmt).getD []).filter usableVariant) ∧
      (∀ v ∈ usableSorted catEntry fmt,
        widthLe v ((usableSorted catEntry fmt).getLastD (Variant.mk none none))) ∧
      fallbackImgTag catAttrs (sizesValue catAttrs) (usableSorted catEntry fmt)
        = "<img" ++ render_attributes
            (("src", some ("/" ++
                ((usableSorted catEntry fmt).getLastD (Variant.mk none none)).path.getD ""))
              :: catAttrs.filter (fun p => !(replacedAttrNames.contains (lowerStr p.1)))
              ++ [("srcset", some (srcsetOf (usableSorted catEntry fmt))),
                  ("sizes", some (sizesValue catAttrs))]) ++ ">" ∧
      catPicture = "<picture>" ++ String.join (pictureSources catAttrs catEntry)
          ++ fallbackImgTag catAttrs (sizesValue catAttrs) (usableSorted catEntry fmt)
          ++ "</picture>" :=
  c4_fallback_img catAttrs catEntry catPicture (by decide)

lemma processTokens_append (m : Manifest) (a b : List Token) :
    processTokens m (a ++ b) = processTokens m a ++ processTokens m b := by
  induction a with
  | nil => simp [processTokens]
  | cons t rest ih =>
    rw [List.cons_append]
    simp only [processTokens]
    rw [ih, String.append_assoc]

/-- A start tag named `img` whose replacement comes out `none` is emitted
as its original text, in any surrounding token stream. -/
lemma img_token_passthrough (manifest : Manifest) (raw : String) (attrs : Attrs)
    (pre post : List Token) (hrep : build_replacement manifest attrs = none) :
    processTokens manifest (pre ++ Token.startTag raw "img" attrs :: post)
      = processTokens manifest pre ++ raw ++ processTokens manifest post := by
  rw [processTokens_append]
  simp only [processTokens]
  have himg : (lowerStr "img" == "img") = true := rfl
  simp only [handleToken, himg, if_true, hrep]
  rw [String.append_assoc]

/-- Claim C5: the rewrite is the identity on empty html or an empty
manifest, and an img start tag passes through verbatim whenever its
normalized src has no `assets/images/` segment, or the base name has no
manifest entry, or the entry yields zero usable source candidates. -/
theorem c5_no_op_conditions :
    (∀ (html : String) (manifest : Manifest), html = "" ∨ manifest = [] →
      replace_images_with_processed html manifest = html)
    ∧ (∀ (manifest : Manifest) (raw : String) (attrs : Attrs) (pre post : List Token)
        (src : String), pyOrStr (dictGet (attrsLower attrs) "src") = some src →
        (imgLookupKey src = none
          ∨ (∃ k, imgLookupKey src = some k ∧ dictGet manifest k = none)
          ∨ (∃ k entry, imgLookupKey src = some k ∧ dictGet manifest k = some entry ∧
              pictureSources attrs entry = [])) →
        processTokens manifest (pre ++ Token.startTag raw "img" attrs :: post)
          = processTokens manifest pre ++ raw ++ processTokens manifest post) := by
  constructor
  · intro html manifest h
    rcases h with h | h
    · subst h
      simp [replace_images_with_processed]
    · subst h
      simp [replace_images_with_processed]
  · intro manifest raw attrs pre post src hsrc hcond
    apply img_token_passthrough
    rcases hcond with h1 | ⟨k, hk, hm⟩ | ⟨k, entry, hk, hm, hps⟩
    · simp only [build_replacement, hsrc, h1]
    · simp only [build_replacement, hsrc, hk, hm]
    · simp only [build_replacement, hsrc, hk, hm]
      by_cases he : entry.isEmpty
      · rw [if_pos he]
      · rw [if_neg he, build_picture_element, if_neg he,
          if_pos (by rw [hps]; rfl)]

/-- The manifest of the C1 example, keyed by `cat.jpg`. -/
def catManifest : Manifest := [("cat.jpg", catEntry)]

/-- Witness for C5: an img whose src lies outside `assets/images/` passes
through verbatim under the cat manifest. -/
theorem c5_no_op_conditions_witness :
    processTokens catManifest
        ([] ++ Token.startTag "<img src=\"/other/pic.png\">" "img"
            [("src", some "/other/pic.png")] :: [])
      = processTokens catManifest [] ++ "<img src=\"/other/pic.png\">"
        ++ processTokens catManifest [] :=
  c5_no_op_conditions.2 catManifest "<img src=\"/other/pic.png\">"
    [("src", some "/other/pic.png")] [] [] "/other/pic.png" (by decide)
    (Or.inl (by decide))

/-- Claim C10: an img start tag with no src attribute, or with an empty
src value, is never rewritten: its original text is reproduced verbatim
in any surrounding token stream, for every manifest. -/
theorem c10_img_without_src (manifest : Manifest) (raw : String) (attrs : Attrs)
    (pre post : List Token)
    (h : dictGet (attrsLower attrs) "src" = none
        ∨ dictGet (attrsLower attrs) "src" = some (some "")) :
    processTokens manifest (pre ++ Token.startTag raw "img" attrs :: post)
      = processTokens manifest pre ++ raw ++ processTokens manifest post := by
  apply img_token_passthrough
  have hP : pyOrStr (dictGet (attrsLower attrs) "src") = none := by
    rcases h with h | h
    · rw [h]
      rfl
    · rw [h]
      rfl
  simp only [build_replacement, hP]

/-- Witness for C10: an img with only an alt attribute passes through. -/
theorem c10_img_without_src_witness :
    processTokens catManifest
        ([] ++ Token.startTag "<img alt=\"x\">" "img" [("alt", some "x")] :: [])
      = processTokens catManifest [] ++ "<img alt=\"x\">" ++ processTokens catManifest [] :=
  c10_img_without_src catManifest "<img alt=\"x\">" [("alt", some "x")] [] []
    (Or.inl (by decide))

/-- Claim C6 (code evaluation at the failing inputs): the per-tag sort
raises for a post lacking a date (`x["date"]` is a KeyError), and the
chronological sort raises for a non-empty unparseable date (`strptime`
raises ValueError); a missing date does sort as oldest in the
chronological sort, showing the guard only covers falsy dates. -/
theorem c6_sort_raises :
    sortPostsForTag [PostRec.mk none "untagged"] = none
    ∧ sortAllPostsChrono [PostRec.mk (some "March 5, 2024") "a"] = none
    ∧ sortAllPostsChrono [PostRec.mk none "old", PostRec.mk (some "2024-03-05") "new"]
        = some [PostRec.mk (some "2024-03-05") "new", PostRec.mk none "old"] := by
  decide

/-- Claim C7 counterexample: the metadata date `2024-3-5` is not
accepted by `fromisoformat` (ISO 8601 requires zero-padded fields), so
normalization leaves it unchanged instead of producing `2024-03-05`. -/
theorem c7_counterexample :
    normalizeDateField (some (DateVal.strVal "2024-3-5"))
        = some (DateVal.strVal "2024-3-5")
    ∧ normalizeDateField (some (DateVal.strVal "2024-3-5"))
        ≠ some (DateVal.strVal "2024-03-05") := by
  decide

/-- Claim C7 (amended): normalization maps an ISO-parseable date string
to the canonical `YYYY-MM-DD` form, formats a datetime value directly,
and leaves every unparseable string exactly unchanged without raising;
`2024-3-5` is not ISO-parseable, hence left unchanged rather than
normalized. -/
theorem c7_date_normalization :
    (∀ s y m d, fromisoformatDate s = some (y, m, d) →
      normalizeDateField (some (DateVal.strVal s))
        = some (DateVal.strVal (formatYMD y m d)))
    ∧ (∀ s, fromisoformatDate s = none →
      normalizeDateField (some (DateVal.strVal s)) = some (DateVal.strVal s))
    ∧ (∀ y m d, normalizeDateField (some (DateVal.dtObj y m d))
        = some (DateVal.strVal (formatYMD y m d)))
    ∧ fromisoformatDate "2024-3-5" = none := by
  refine ⟨?_, ?_, ?_, by decide⟩
  · intro s y m d hp
    have hne : (s == "") = false := by
      cases hb : s == ""
      · rfl
      · exfalso
        have hs : s = "" := by simpa using hb
        subst hs
        rw [show fromisoformatDate "" = none from rfl] at hp
        cases hp
    simp [normalizeDateField, dateTruthy, hne, hp]
  · intro s hp
    by_cases hs : s = ""
    · subst hs
      simp [normalizeDateField, dateTruthy]
    · have hne : (s == "") = false := by simpa using hs
      simp [normalizeDateField, dateTruthy, hne, hp]
  · intro y m d
    rfl

/-- Witness for C7: the canonical string `2024-03-05` is parseable and
normalizes to itself. -/
theorem c7_date_normalization_witness :
    normalizeDateField (some (DateVal.strVal "2024-03-05"))
      = some (DateVal.strVal (formatYMD 2024 3 5)) :=
  c7_date_normalization.1 "2024-03-05" 2024 3 5 (by decide)

/-- Claim C9 counterexample: for the deleted post source
`content/posts/foo.md`, the corresponding output directory (the render
path writes to `./posts/foo`) exists, yet the deletion branch removes
nothing, because it joins the output root with the bare slug `foo`. -/
theorem c9_counterexample :
    outputDirOfSource "content/posts/foo.md" = "./posts/foo"
    ∧ (fun d => d == "./posts/foo") "./posts/foo" = true
    ∧ BuildAction.removeDir "./posts/foo"
        ∉ singleFileBuild "content/posts/foo.md" false (fun d => d == "./posts/foo") true := by
  decide

/-- Claim C9 (amended): when the file no longer exists, the directory at
the output root named by the file's bare slug is removed exactly when the
slug is not `index` and that directory exists (for a post file this is
not the post's `posts/<slug>` output directory, which is left in place),
the slug cache is deleted exactly when present, and no compilation or
rendering action occurs. -/
theorem c9_single_file_deletion (file : String) (isDir : String → Bool)
    (cacheExists : Bool) :
    (BuildAction.removeDir (outDir (splitextStem (pyBasename file)))
        ∈ singleFileBuild file false isDir cacheExists
      ↔ (splitextStem (pyBasename file) ≠ "index"
          ∧ isDir (outDir (splitextStem (pyBasename file))) = true))
    ∧ (BuildAction.removeCache ∈ singleFileBuild file false isDir cacheExists
        ↔ cacheExists = true)
    ∧ (∀ f, BuildAction.compileFile f ∉ singleFileBuild file false isDir cacheExists
        ∧ BuildAction.renderFile f ∉ singleFileBuild file false isDir cacheExists) := by
  simp only [singleFileBuild, Bool.false_eq_true, if_false]
  by_cases h1 : splitextStem (pyBasename file) == "index"
  · have h1e : splitextStem (pyBasename file) = "index" := by simpa using h1
    by_cases h3 : cacheExists <;>
      simp [h1, h1e, h3, List.mem_append]
  · have h1e : ¬ splitextStem (pyBasename file) = "index" := by simpa using h1
    by_cases h2 : isDir (outDir (splitextStem (pyBasename file))) <;>
      by_cases h3 : cacheExists <;>
        simp [h1, h1e, h2, h3, List.mem_append]

/-- Witness for C9: a deleted top-level page source whose output
directory exists gets that directory removed. -/
theorem c9_single_file_deletion_witness :
    BuildAction.removeDir (outDir (splitextStem (pyBasename "content/about.md")))
      ∈ singleFileBuild "content/about.md" false (fun d => d == "./about") true :=
  (c9_single_file_deletion "content/about.md" (fun d => d == "./about") true).1.mpr
    (by decide)

lemma pages_collectContent : ∀ (docs : List Doc) (st : BuildLists),
    (collectContent docs st).pages
      = st.pages ++ docs.filter (fun d => draftKeep d.draft) := by
  intro docs
  induction docs with
  | nil => intro st; simp [collectContent]
  | cons d rest ih =>
    intro st
    simp only [collectContent]
    rw [ih, List.filter_cons]
    by_cases hd : draftSkip d.draft <;>
      simp [contentStep, draftKeep, hd, List.append_assoc]

lemma sitemap_collectContent : ∀ (docs : List Doc) (st : BuildLists),
    (collectContent docs st).sitemap
      = st.sitemap ++ (docs.filter (fun d => draftKeep d.draft)).map Doc.url := by
  intro docs
  induction docs with
  | nil => intro st; simp [collectContent]
  | cons d rest ih =>
    intro st
    simp only [collectContent]
    rw [ih, List.filter_cons]
    by_cases hd : draftSkip d.draft <;>
      simp [contentStep, draftKeep, hd, List.append_assoc]

lemma allPosts_collectContent : ∀ (docs : List Doc) (st : BuildLists),
    (collectContent docs st).allPosts = st.allPosts := by
  intro docs
  induction docs with
  | nil => intro st; simp [collectContent]
  | cons d rest ih =>
    intro st
    simp only [collectContent]
    rw [ih]
    by_cases hd : draftSkip d.draft <;> simp [contentStep, hd]

lemma tagIndex_collectContent : ∀ (docs : List Doc) (st : BuildLists),
    (collectContent docs st).tagIndex = st.tagIndex := by
  intro docs
  induction docs with
  | nil => intro st; simp [collectContent]
  | cons d rest ih =>
    intro st
    simp only [collectContent]
    rw [ih]
    by_cases hd : draftSkip d.draft <;> simp [contentStep, hd]

lemma pages_postStep (st : BuildLists) (d : Doc) :
    (postStep st d).pages
      = if draftSkip d.draft then st.pages else st.pages ++ [d] := by
  by_cases hd : draftSkip d.draft <;>
    by_cases hl : d.layout == some "post" <;>
      simp [postStep, hd, hl]

lemma sitemap_postStep (st : BuildLists) (d : Doc) :
    (postStep st d).sitemap
      = if draftSkip d.draft then st.sitemap else st.sitemap ++ [d.url] := by
  by_cases hd : draftSkip d.draft <;>
    by_cases hl : d.layout == some "post" <;>
      simp [postStep, hd, hl]

lemma allPosts_postStep (st : BuildLists) (d : Doc) :
    (postStep st d).allPosts
      = if draftSkip d.draft then st.allPosts
        else if d.layout == some "post" then st.allPosts ++ [d] else st.allPosts := by
  by_cases hd : draftSkip d.draft <;>
    by_cases hl : d.layout == some "post" <;>
      simp [postStep, hd, hl]

lemma tagIndex_postStep (st : BuildLists) (d : Doc) :
    (postStep st d).tagIndex
      = if draftSkip d.draft then st.tagIndex
        else if d.layout == some "post" then addTags st.tagIndex d else st.tagIndex := by
  by_cases hd : draftSkip d.draft <;>
    by_cases hl : d.layout == some "post" <;>
      simp [postStep, hd, hl]

lemma pages_collectPosts : ∀ (docs : List Doc) (st : BuildLists),
    (collectPosts docs st).pages
      = st.pages ++ docs.filter (fun d => draftKeep d.draft) := by
  intro docs
  induction docs with
  | nil => intro st; simp [collectPosts]
  | cons d rest ih =>
    intro st
    simp only [collectPosts]
    rw [ih, pages_postStep, List.filter_cons]
    by_cases hd : draftSkip d.draft <;>
      simp [draftKeep, hd, List.append_assoc]

lemma sitemap_collectPosts : ∀ (docs : List Doc) (st : BuildLists),
    (collectPosts docs st).sitemap
      = st.sitemap ++ (docs.filter (fun d => draftKeep d.draft)).map Doc.url := by
  intro docs
  induction docs with
  | nil => intro st; simp [collectPosts]
  | cons d rest ih =>
    intro st
    simp only [collectPosts]
    rw [ih, sitemap_postStep, List.filter_cons]
    by_cases hd : draftSkip d.draft <;>
      simp [draftKeep, hd, List.append_assoc]

lemma allPosts_collectPosts : ∀ (docs : List Doc) (st : BuildLists),
    (collectPosts docs st).allPosts
      = st.allPosts ++ (docs.filter (fun d => draftKeep d.draft)).filter
          (fun d => d.layout == some "post") := by
  intro docs
  induction docs with
  | nil => intro st; simp [collectPosts]
  | cons d rest ih =>
    intro st
    simp only [collectPosts]
    rw [ih, allPosts_postStep, List.filter_cons]
    by_cases hd : draftSkip d.draft
    · simp [draftKeep, hd]
    · by_cases hl : d.layout == some "post" <;>
        simp [draftKeep, hd, hl, List.filter_cons, List.append_assoc]

lemma tagsOf_tagAdd (m : List (String × List Doc)) (t t2 : String) (d : Doc) :
    tagsOf (tagAdd m t d) t2
      = if t = t2 then tagsOf m t2 ++ [d] else tagsOf m t2 := by
  induction m with
  | nil =>
    by_cases h : t = t2 <;> simp [tagAdd, tagsOf, h]
  | cons p rest ih =>
    obtain ⟨k, l⟩ := p
    by_cases hk : k = t
    · subst hk
      by_cases ht : k = t2 <;> simp [tagAdd, tagsOf, ht]
    · by_cases ht : k = t2
      · subst ht
        have : ¬ t = k := fun hh => hk hh.symm
        simp [tagAdd, tagsOf, hk, this]
      · simp [tagAdd, tagsOf, hk, ht, ih]

lemma mem_tagsOf_foldl (d : Doc) : ∀ (ts : List String)
    (m : List (String × List Doc)) (x : Doc) (t : String),
    x ∈ tagsOf (ts.foldl (fun acc t2 => tagAdd acc t2 d) m) t ↔
      (x ∈ tagsOf m t ∨ (x = d ∧ t ∈ ts)) := by
  intro ts
  induction ts with
  | nil => intro m x t; simp
  | cons t0 rest ih =>
    intro m x t
    rw [List.foldl_cons, ih, tagsOf_tagAdd]
    by_cases h : t0 = t
    · subst h
      rw [if_pos rfl]
      simp only [List.mem_append, List.mem_singleton, List.mem_cons]
      tauto
    · rw [if_neg h]
      simp only [List.mem_cons]
      have : ¬ t = t0 := fun hh => h hh.symm
      tauto

lemma mem_tagsOf_collectPosts : ∀ (docs : List Doc) (st : BuildLists) (x : Doc)
    (t : String),
    x ∈ tagsOf (collectPosts docs st).tagIndex t ↔
      (x ∈ tagsOf st.tagIndex t ∨
        (x ∈ docs ∧ draftKeep x.draft = true ∧ x.layout = some "post" ∧ t ∈ x.tags)) := by
  intro docs
  induction docs with
  | nil => intro st x t; simp [collectPosts]
  | cons d rest ih =>
    intro st x t
    simp only [collectPosts]
    rw [ih, tagIndex_postStep]
    by_cases hd : draftSkip d.draft
    · rw [if_pos hd]
      simp only [List.mem_cons]
      constructor
      · rintro (h | ⟨hr, hk, hl, ht⟩)
        · exact Or.inl h
        · exact Or.inr ⟨Or.inr hr, hk, hl, ht⟩
      · rintro (h | ⟨hr | hr, hk, hl, ht⟩)
        · exact Or.inl h
        · subst hr
          rw [draftKeep, hd] at hk
          cases hk
        · exact Or.inr ⟨hr, hk, hl, ht⟩
    · rw [if_neg hd]
      by_cases hl : d.layout == some "post"
      · rw [if_pos hl]
        have hle : d.layout = some "post" := by simpa using hl
        rw [show addTags st.tagIndex d
            = d.tags.foldl (fun acc t2 => tagAdd acc t2 d) st.tagIndex from rfl]
        rw [mem_tagsOf_foldl]
        simp only [List.mem_cons]
        constructor
        · rintro ((h | ⟨hx, ht⟩) | ⟨hr, hk, hlx, ht⟩)
          · exact Or.inl h
          · subst hx
            exact Or.inr ⟨Or.inl rfl, by simp [draftKeep, hd], hle, ht⟩
          · exact Or.inr ⟨Or.inr hr, hk, hlx, ht⟩
        · rintro (h | ⟨hx | hx, hk, hlx, ht⟩)
          · exact Or.inl (Or.inl h)
          · subst hx
            exact Or.inl (Or.inr ⟨rfl, ht⟩)
          · exact Or.inr ⟨hx, hk, hlx, ht⟩
      · rw [if_neg hl]
        simp only [List.mem_cons]
        constructor
        · rintro (h | ⟨hr, hk, hlx, ht⟩)
          · exact Or.inl h
          · exact Or.inr ⟨Or.inr hr, hk, hlx, ht⟩
        · rintro (h | ⟨hx | hx, hk, hlx, ht⟩)
          · exact Or.inl h
          · subst hx
            rw [hlx] at hl
            simp at hl
          · exact Or.inr ⟨hx, hk, hlx, ht⟩

/-- Claim C8: a document whose draft value string-compares
case-insensitively to `true`, `1` or `yes` is skipped — the rendered page
list, the sitemap, the chronological post list and the tag index are
exactly those built from the surviving documents — and every other
document passes the filter. -/
theorem c8_draft_filtering (content posts : List Doc) :
    (∀ dv : Option MetaVal, draftSkip dv = true ↔
      (lowerStr (pyStrOpt dv) = "true" ∨ lowerStr (pyStrOpt dv) = "1"
        ∨ lowerStr (pyStrOpt dv) = "yes"))
    ∧ (fullBuildLists content posts).pages
        = content.filter (fun d => draftKeep d.draft)
          ++ posts.filter (fun d => draftKeep d.draft)
    ∧ (fullBuildLists content posts).sitemap
        = (content.filter (fun d => draftKeep d.draft)
            ++ posts.filter (fun d => draftKeep d.draft)).map Doc.url
    ∧ (fullBuildLists content posts).allPosts
        = (posts.filter (fun d => draftKeep d.draft)).filter
            (fun d => d.layout == some "post")
    ∧ (∀ t d, d ∈ tagsOf (fullBuildLists content posts).tagIndex t ↔
        (d ∈ posts ∧ draftKeep d.draft = true ∧ d.layout = some "post" ∧ t ∈ d.tags)) := by
  refine ⟨?_, ?_, ?_, ?_, ?_⟩
  · intro dv
    rw [draftSkip, List.contains, List.elem_iff]
    simp
  · rw [fullBuildLists, pages_collectPosts, pages_collectContent]
    simp [emptyLists]
  · rw [fullBuildLists, sitemap_collectPosts, sitemap_collectContent]
    simp [emptyLists]
  · rw [fullBuildLists, allPosts_collectPosts, allPosts_collectContent]
    simp [emptyLists]
  · intro t d
    rw [fullBuildLists, mem_tagsOf_collectPosts, tagIndex_collectContent]
    simp [emptyLists, tagsOf]

/-- Witness for C8: a kept post with a tag lands in the tag index. -/
theorem c8_draft_filtering_witness :
    Doc.mk "hello" none (some "post") ["news"] "/posts/hello"
      ∈ tagsOf (fullBuildLists []
          [Doc.mk "hello" none (some "post") ["news"] "/posts/hello"]).tagIndex "news" :=
  ((c8_draft_filtering [] [Doc.mk "hello" none (some "post") ["news"] "/posts/hello"]).2.2.2.2
      "news" (Doc.mk "hello" none (some "post") ["news"] "/posts/hello")).mpr
    (by refine ⟨?_, ?_, ?_, ?_⟩ <;> decide)

end SiteBuild
